import Mathlib

/-!
Formal model of the GPU-undervolt matrix-multiply benchmark
(src/matrixMulCUBLAS/matrixMulCUBLAS.cpp).

Scalars are modelled as exact rationals: every `float`/`double` value of the
program is represented by the rational number it denotes, so the algebraic
identities of the program hold exactly.  Flat row-major buffers are total
functions `Nat → ℚ`, and a C store into such a buffer is `updateBuf`.  The
libc `rand()` stream, the per-invocation GPU output buffer and the elapsed
times reported by the CUDA events are oracles (functions of the call index),
and the NVML device-management interface is an oracle saying which call
succeeds.
-/

/-- A store into a flat buffer: writing value `v` at index `n`. -/
def updateBuf (f : Nat → ℚ) (n : Nat) (v : ℚ) : Nat → ℚ :=
  fun m => if m = n then v else f m

lemma updateBuf_same (f : Nat → ℚ) (n : Nat) (v : ℚ) : updateBuf f n v n = v := by
  simp [updateBuf]

lemma updateBuf_other (f : Nat → ℚ) (n m : Nat) (v : ℚ) (h : m ≠ n) :
    updateBuf f n v m = f m := by
  simp [updateBuf, h]

/-- A left fold that adds `f l` at each step is the finite sum. -/
lemma foldl_add_eq_sum (f : ℕ → ℚ) :
    ∀ (n : ℕ) (c : ℚ),
      (List.range n).foldl (fun s l => s + f l) c = c + ∑ l ∈ Finset.range n, f l := by
  intro n
  induction n with
  | zero => intro c; simp
  | succ m ih =>
      intro c
      rw [List.range_succ, List.foldl_append, List.foldl_cons, List.foldl_nil, ih,
        Finset.sum_range_succ]
      ring

/-- Reading back an index that the fold of stores wrote (for an index map that
is injective on the range, the final value at `idx j` is `g j`). -/
lemma foldl_update_get (g : ℕ → ℚ) (idx : ℕ → ℕ) :
    ∀ (m : ℕ) (C : ℕ → ℚ) (j : ℕ), j < m →
      (∀ a, a < m → ∀ b, b < m → idx a = idx b → a = b) →
      ((List.range m).foldl (fun C' t => updateBuf C' (idx t) (g t)) C) (idx j) = g j := by
  intro m
  induction m with
  | zero => intro C j hj _; omega
  | succ n ih =>
      intro C j hj hinj
      rw [List.range_succ, List.foldl_append, List.foldl_cons, List.foldl_nil]
      rcases Nat.lt_succ_iff_lt_or_eq.mp hj with hlt | heq
      · have hne : idx j ≠ idx n := by
          intro h
          have := hinj j (by omega) n (by omega) h
          omega
        rw [updateBuf_other _ _ _ _ hne]
        exact ih C j hlt (fun a ha b hb h => hinj a (by omega) b (by omega) h)
      · subst heq
        exact updateBuf_same _ _ _

/-- Reading back an index that none of the stores of the fold touches. -/
lemma foldl_update_frozen (g : ℕ → ℚ) (idx : ℕ → ℕ) :
    ∀ (m : ℕ) (C : ℕ → ℚ) (n : ℕ), (∀ t, t < m → n ≠ idx t) →
      ((List.range m).foldl (fun C' t => updateBuf C' (idx t) (g t)) C) n = C n := by
  intro m
  induction m with
  | zero => intro C n _; simp
  | succ k ih =>
      intro C n hn
      rw [List.range_succ, List.foldl_append, List.foldl_cons, List.foldl_nil]
      rw [updateBuf_other _ _ _ _ (hn k (by omega))]
      exact ih C n (fun t ht => hn t (by omega))

/-- Shallow embedding of `matrixMulCPU` (the CPU Reference Compute): a triple
nested loop over `i < hA`, `j < wB`, accumulating `Σ_k A[i*wA+k] * B[k*wB+j]`
exactly (the `double` accumulation, exact in the rational model) and storing
the narrowed value at `C[i*wB+j]`.  The narrowing of the accumulator to
`float` on the final store is abstracted as the function `fl`, applied exactly
once per element, at the store.  `C0` is the preallocated output buffer. -/
def matrixMulCPU (fl : ℚ → ℚ) (C0 A B : ℕ → ℚ) (hA wA wB : ℕ) : ℕ → ℚ :=
  (List.range hA).foldl
    (fun C i =>
      (List.range wB).foldl
        (fun C' j =>
          updateBuf C' (i * wB + j)
            (fl ((List.range wA).foldl (fun s k => s + A (i * wA + k) * B (k * wB + j)) 0)))
        C)
    C0

/-- A row-by-row grid of stores at `n * wB + t` reads back its own value. -/
lemma matrixMulCPU_outer (v : ℕ → ℕ → ℚ) (wB : ℕ) :
    ∀ (hA : ℕ) (C : ℕ → ℚ) (i j : ℕ), i < hA → j < wB →
      ((List.range hA).foldl
          (fun C n => (List.range wB).foldl (fun C' t => updateBuf C' (n * wB + t) (v n t)) C) C)
        (i * wB + j) = v i j := by
  intro hA
  induction hA with
  | zero => intro C i j hi _; omega
  | succ m ih =>
      intro C i j hi hj
      rw [List.range_succ, List.foldl_append, List.foldl_cons, List.foldl_nil]
      rcases Nat.lt_succ_iff_lt_or_eq.mp hi with hlt | heq
      · have hfrozen : ∀ t, t < wB → i * wB + j ≠ m * wB + t := by
          intro t ht
          have h1 : (i + 1) * wB ≤ m * wB := Nat.mul_le_mul_right wB (by omega)
          have h2 : i * wB + j < (i + 1) * wB := by
            have h3 : (i + 1) * wB = i * wB + wB := by ring
            omega
          omega
        exact (foldl_update_frozen (fun t => v m t) (fun t => m * wB + t) wB _ _
          hfrozen).trans (ih C i j hlt hj)
      · subst heq
        exact foldl_update_get (fun t => v i t) (fun t => i * wB + t) wB _ j hj
          (fun a _ b _ h => by simpa using h)

/-- Value of the Reference Compute at output position `(i, j)`. -/
lemma matrixMulCPU_spec (fl : ℚ → ℚ) (C0 A B : ℕ → ℚ) (hA wA wB i j : ℕ)
    (hi : i < hA) (hj : j < wB) :
    matrixMulCPU fl C0 A B hA wA wB (i * wB + j)
      = fl (∑ k ∈ Finset.range wA, A (i * wA + k) * B (k * wB + j)) := by
  have h := matrixMulCPU_outer
    (fun n t => fl ((List.range wA).foldl (fun s k => s + A (n * wA + k) * B (k * wB + t)) 0))
    wB hA C0 i j hi hj
  calc matrixMulCPU fl C0 A B hA wA wB (i * wB + j)
      = fl ((List.range wA).foldl (fun s k => s + A (i * wA + k) * B (k * wB + j)) 0) := h
    _ = fl (0 + ∑ k ∈ Finset.range wA, A (i * wA + k) * B (k * wB + j)) := by
          rw [foldl_add_eq_sum (fun k => A (i * wA + k) * B (k * wB + j)) wA 0]
    _ = fl (∑ k ∈ Finset.range wA, A (i * wA + k) * B (k * wB + j)) := by rw [zero_add]

/-- Shallow embedding of `randomInit`: for `i < size` it stores
`data[i] = rand() / (float)RAND_MAX`.  The stream of `rand()` results is the
oracle `r` (libc guarantees `0 ≤ rand() ≤ RAND_MAX`), `rmax` is `RAND_MAX`,
and `data0` is the uninitialised buffer. -/
def randomInit (r : ℕ → ℕ) (rmax : ℕ) (data0 : ℕ → ℚ) (size : ℕ) : ℕ → ℚ :=
  (List.range size).foldl (fun data i => updateBuf data i ((r i : ℚ) / (rmax : ℚ))) data0

/-- Value written by `randomInit` at position `i < size`. -/
lemma randomInit_spec (r : ℕ → ℕ) (rmax : ℕ) (data0 : ℕ → ℚ) (size i : ℕ) (hi : i < size) :
    randomInit r rmax data0 size i = (r i : ℚ) / (rmax : ℚ) :=
  foldl_update_get (fun t => (r t : ℚ) / (rmax : ℚ)) (fun t => t) size data0 i hi
    (fun a _ b _ h => h)

/-- The six dimensions set up by `matrixMultiply` (`_matrixSize`). -/
structure sMatrixSize where
  uiWA : ℕ
  uiHA : ℕ
  uiWB : ℕ
  uiHB : ℕ
  uiWC : ℕ
  uiHC : ℕ

/-- Semantics of the vendor primitive `cublasSgemm` in the only form the
program uses: both transpose flags `CUBLAS_OP_N`.  Column-major: for
`i < m`, `j < n` the cell `C[i + j*ldc]` receives
`alpha * Σ_{l<k} A[i + l*lda] * B[l + j*ldb] + beta * C[i + j*ldc]`; other
cells of the output buffer are untouched.  This is the opaque high-performance
primitive of §4.2, taken at its mathematical contract (exact arithmetic). -/
def cublasSgemmNN (m n k : ℕ) (alpha : ℚ) (Abuf : ℕ → ℚ) (lda : ℕ)
    (Bbuf : ℕ → ℚ) (ldb : ℕ) (beta : ℚ) (Cbuf : ℕ → ℚ) (ldc : ℕ) : ℕ → ℚ :=
  fun idx =>
    if idx % ldc < m ∧ idx / ldc < n then
      alpha * ((List.range k).foldl
          (fun s l => s + Abuf (idx % ldc + l * lda) * Bbuf (l + (idx / ldc) * ldb)) 0)
        + beta * Cbuf idx
    else Cbuf idx

/-- The exact `cublasSgemm` invocation issued by `matrixMultiply` (both the
baseline call into `d_C2` and the per-trial call into `d_C`): no transpose
flags, `m = uiWB`, `n = uiHA`, `k = uiWA`, `alpha = 1`, left operand `d_B`
with leading dimension `uiWB`, right operand `d_A` with leading dimension
`uiWA`, `beta = 0`, output leading dimension `uiWB`. -/
def matrixMultiplyGemmCall (sz : sMatrixSize) (d_A d_B d_Cinit : ℕ → ℚ) : ℕ → ℚ :=
  cublasSgemmNN sz.uiWB sz.uiHA sz.uiWA 1 d_B sz.uiWB d_A sz.uiWA 0 d_Cinit sz.uiWB

/-- Modelled from the spec: the program checks each trial with
`sdkCompareL2fe(h_C2, h_C, size_C, eps)` from `helper_functions.h`, whose
source is not under src/.  Per §4.3 the Result Comparator computes the L2
relative error `sqrt(Σ(a_i − b_i)²) / sqrt(Σ a_i²)` of candidate against
reference and passes iff it is ≤ the tolerance; when the reference L2 norm is
zero the metric is defined explicitly as pass iff the candidate is also
all-zero (one of the two behaviours §4.3 allows), rather than dividing by
zero.  The test is stated in squared form, which is equivalent for a
nonnegative tolerance and avoids square roots over ℚ. -/
def sdkCompareL2fe (reference data : ℕ → ℚ) (len : ℕ) (epsilon : ℚ) : Bool :=
  if (∑ i ∈ Finset.range len, (reference i) ^ 2) = 0 then
    decide ((∑ i ∈ Finset.range len, (reference i - data i) ^ 2) = 0)
  else
    decide ((∑ i ∈ Finset.range len, (reference i - data i) ^ 2)
      ≤ epsilon ^ 2 * ∑ i ∈ Finset.range len, (reference i) ^ 2)

/-- The trial count `nIter` fixed in `matrixMultiply`. -/
def nIter : ℕ := 100

/-- The aggregate statistics the trial loop accumulates (`fail_count` and
`total_perf` in the source; `iterationsRun` is the fixed `nIter`; `verdicts`
records each trial's comparator verdict in order). -/
structure TrialStats where
  iterationsRun : ℕ
  failCount : ℕ
  totalPerf : ℚ
  verdicts : List Bool

/-- The per-trial operation count `2.0 * uiHC * uiWC * uiHB` of the source. -/
def flopsPerMatrixMul (sz : sMatrixSize) : ℚ :=
  2 * (sz.uiHC : ℚ) * (sz.uiWC : ℚ) * (sz.uiHB : ℚ)

/-- The throughput derivation `(flops * 1.0e-9) / (msec / 1000.0)` of the
source, with no guard on `msec = 0` (division is total on ℚ, by the
convention `x / 0 = 0`; the C float division would produce an infinity). -/
def gigaFlopsOf (flops msec : ℚ) : ℚ :=
  flops * (1 / 1000000000) / (msec / 1000)

/-- One iteration of the trial loop of `matrixMultiply`: measure `msec j`
(elapsed-time oracle), derive `gigaFlops`, add it to `total_perf`, copy the
trial result `h_C j` back and compare it against the baseline buffer `h_C2`
with `sdkCompareL2fe`, incrementing `fail_count` when the comparison fails. -/
def trialStep (h_C2 : ℕ → ℚ) (h_C : ℕ → ℕ → ℚ) (size_C : ℕ) (eps flops : ℚ)
    (msec : ℕ → ℚ) (s : TrialStats) (j : ℕ) : TrialStats :=
  { iterationsRun := s.iterationsRun
    failCount :=
      if sdkCompareL2fe h_C2 (h_C j) size_C eps then s.failCount else s.failCount + 1
    totalPerf := s.totalPerf + gigaFlopsOf flops (msec j)
    verdicts := s.verdicts ++ [sdkCompareL2fe h_C2 (h_C j) size_C eps] }

/-- The benchmark protocol of `matrixMultiply`: the GPU's output buffer at
each invocation is the oracle `gpu` (invocation 0 is the untimed-but-measured
baseline call into `d_C2`, copied back to host as `h_C2` before the loop;
invocation `j + 1` is trial `j`'s call into `d_C`).  The `nIter = 100` trials
compare each trial's buffer against `h_C2 = gpu 0`; the CPU routine
`matrixMulCPU` is never invoked. -/
def matrixMultiplyModel (gpu : ℕ → ℕ → ℚ) (size_C : ℕ) (eps flops : ℚ)
    (msec : ℕ → ℚ) : TrialStats :=
  (List.range nIter).foldl
    (trialStep (gpu 0) (fun j => gpu (j + 1)) size_C eps flops msec)
    ⟨nIter, 0, 0, []⟩

/-- The reported `failure rate: (float)fail_count / nIter`. -/
def failureRate (s : TrialStats) : ℚ := (s.failCount : ℚ) / (s.iterationsRun : ℚ)

/-- The reported `average perf: total_perf / nIter`. -/
def averagePerf (s : TrialStats) : ℚ := s.totalPerf / (s.iterationsRun : ℚ)

/-- Closed form of the trial loop fold, for any iteration count and any
starting statistics. -/
lemma trialLoop_char (h_C2 : ℕ → ℚ) (h_C : ℕ → ℕ → ℚ) (size_C : ℕ) (eps flops : ℚ)
    (msec : ℕ → ℚ) :
    ∀ (n : ℕ) (s0 : TrialStats),
      ((List.range n).foldl (trialStep h_C2 h_C size_C eps flops msec) s0).iterationsRun
          = s0.iterationsRun
        ∧ ((List.range n).foldl (trialStep h_C2 h_C size_C eps flops msec) s0).failCount
          = s0.failCount + ((List.range n).filter
              (fun j => !(sdkCompareL2fe h_C2 (h_C j) size_C eps))).length
        ∧ ((List.range n).foldl (trialStep h_C2 h_C size_C eps flops msec) s0).totalPerf
          = s0.totalPerf + ∑ j ∈ Finset.range n, gigaFlopsOf flops (msec j)
        ∧ ((List.range n).foldl (trialStep h_C2 h_C size_C eps flops msec) s0).verdicts
          = s0.verdicts ++ (List.range n).map
              (fun j => sdkCompareL2fe h_C2 (h_C j) size_C eps) := by
  intro n
  induction n with
  | zero => intro s0; refine ⟨rfl, by simp, by simp, by simp⟩
  | succ m ih =>
      intro s0
      obtain ⟨e1, e2, e3, e4⟩ := ih s0
      rw [List.range_succ]
      simp only [List.foldl_append, List.foldl_cons, List.foldl_nil, List.filter_append,
        List.map_append, List.length_append]
      refine ⟨?_, ?_, ?_, ?_⟩
      · simp only [trialStep]
        exact e1
      · simp only [trialStep]
        by_cases hres : sdkCompareL2fe h_C2 (h_C m) size_C eps
        · simp [hres, e2]
        · simp [hres, e2]
          omega
      · simp only [trialStep]
        rw [e3, Finset.sum_range_succ]
        ring
      · simp only [trialStep]
        rw [e4]
        simp

/-- The NVML sub-operations invoked by `undervolte` and `resetvolte` after
`nvmlInit`. -/
inductive SubOp where
  | getHandle
  | setPowerLimit
  | setAppClocks
  | disableAutoBoost
  | resetAppClocks
  | enableAutoBoost
deriving DecidableEq

/-- The device-resident power/clock regime the NVML calls mutate:
`powerLimit` in milliwatts, `appClocks = none` meaning default application
clocks, and the auto-boost setting. -/
structure DeviceState where
  powerLimit : ℕ
  appClocks : Option (ℕ × ℕ)
  autoBoost : Bool
deriving DecidableEq

/-- Oracle for the fallible device-management interface: whether `nvmlInit`
succeeds and whether each sub-operation call returns `NVML_SUCCESS`. -/
structure NvmlOracle where
  initOk : Bool
  ok : SubOp → Bool

/-- A reported transition failure: the `init error` diagnostic, or the
per-step diagnostic naming the device index and the failing operation. -/
inductive TransitionFailure where
  | initError
  | opError (devIndex : ℕ) (op : SubOp)
deriving DecidableEq

/-- Outcome of one power-state transition: the device state left behind, the
sub-operations invoked in order, and the reported failure (if any). -/
structure TransitionResult where
  device : DeviceState
  attempted : List SubOp
  failure : Option TransitionFailure
deriving DecidableEq

/-- Shallow embedding of `undervolte` (transition to the Constrained regime):
init, resolve the handle of device 0, set the power limit to 30000, set
application clocks to (3510, 1885), disable auto-boost; each failing call
prints a diagnostic naming device 0 and the operation and returns at once,
leaving the mutations already applied in place. -/
def undervolte (o : NvmlOracle) (d : DeviceState) : TransitionResult :=
  if o.initOk = false then ⟨d, [], some .initError⟩
  else if o.ok .getHandle = false then
    ⟨d, [.getHandle], some (.opError 0 .getHandle)⟩
  else if o.ok .setPowerLimit = false then
    ⟨d, [.getHandle, .setPowerLimit], some (.opError 0 .setPowerLimit)⟩
  else if o.ok .setAppClocks = false then
    ⟨{ d with powerLimit := 30000 },
      [.getHandle, .setPowerLimit, .setAppClocks], some (.opError 0 .setAppClocks)⟩
  else if o.ok .disableAutoBoost = false then
    ⟨{ d with powerLimit := 30000, appClocks := some (3510, 1885) },
      [.getHandle, .setPowerLimit, .setAppClocks, .disableAutoBoost],
      some (.opError 0 .disableAutoBoost)⟩
  else
    ⟨{ d with powerLimit := 30000, appClocks := some (3510, 1885), autoBoost := false },
      [.getHandle, .setPowerLimit, .setAppClocks, .disableAutoBoost], none⟩

/-- Shallow embedding of `resetvolte` (transition to the Normal regime):
init, resolve the handle of device 0, set the power limit to 38500, reset
application clocks to the device defaults, re-enable auto-boost; same
abort-on-first-failure discipline as `undervolte`. -/
def resetvolte (o : NvmlOracle) (d : DeviceState) : TransitionResult :=
  if o.initOk = false then ⟨d, [], some .initError⟩
  else if o.ok .getHandle = false then
    ⟨d, [.getHandle], some (.opError 0 .getHandle)⟩
  else if o.ok .setPowerLimit = false then
    ⟨d, [.getHandle, .setPowerLimit], some (.opError 0 .setPowerLimit)⟩
  else if o.ok .resetAppClocks = false then
    ⟨{ d with powerLimit := 38500 },
      [.getHandle, .setPowerLimit, .resetAppClocks], some (.opError 0 .resetAppClocks)⟩
  else if o.ok .enableAutoBoost = false then
    ⟨{ d with powerLimit := 38500, appClocks := none },
      [.getHandle, .setPowerLimit, .resetAppClocks, .enableAutoBoost],
      some (.opError 0 .enableAutoBoost)⟩
  else
    ⟨{ d with powerLimit := 38500, appClocks := none, autoBoost := true },
      [.getHandle, .setPowerLimit, .resetAppClocks, .enableAutoBoost], none⟩

/-- The fixed order of the Constrained transition's sub-operations. -/
def constrainedOrder : List SubOp :=
  [.getHandle, .setPowerLimit, .setAppClocks, .disableAutoBoost]

/-- The fixed order of the Normal transition's sub-operations. -/
def normalOrder : List SubOp :=
  [.getHandle, .setPowerLimit, .resetAppClocks, .enableAutoBoost]

/-- The device mutation of one successfully applied Constrained sub-operation
(restating the per-step effects, for the no-rollback statement). -/
def constrainedEffect (d : DeviceState) (op : SubOp) : DeviceState :=
  match op with
  | .setPowerLimit => { d with powerLimit := 30000 }
  | .setAppClocks => { d with appClocks := some (3510, 1885) }
  | .disableAutoBoost => { d with autoBoost := false }
  | _ => d

/-- The device mutation of one successfully applied Normal sub-operation. -/
def normalEffect (d : DeviceState) (op : SubOp) : DeviceState :=
  match op with
  | .setPowerLimit => { d with powerLimit := 38500 }
  | .resetAppClocks => { d with appClocks := none }
  | .enableAutoBoost => { d with autoBoost := true }
  | _ => d

/-- The error-handling contract of one transition: if every sub-operation
succeeds, all of them run in order, no failure is reported and the device
carries all the mutations; if `op` is the first sub-operation of the order to
fail, exactly the sub-operations up to and including `op` were invoked, the
failure report names device 0 and `op`, the remaining sub-operations did not
run, and the device keeps exactly the mutations applied before `op`
(no rollback). -/
def transitionContract (order : List SubOp) (effect : DeviceState → SubOp → DeviceState)
    (o : NvmlOracle) (d : DeviceState) (r : TransitionResult) : Prop :=
  ((∀ op ∈ order, o.ok op = true) →
      r.attempted = order ∧ r.failure = none ∧ r.device = order.foldl effect d)
    ∧ (∀ pre op suf, order = pre ++ op :: suf → (∀ p ∈ pre, o.ok p = true) →
        o.ok op = false →
        r.attempted = pre ++ [op] ∧ r.failure = some (.opError 0 op)
          ∧ r.device = pre.foldl effect d)

/-- An NVML oracle on which every call succeeds. -/
def allOkOracle : NvmlOracle := ⟨true, fun _ => true⟩

/-- The resources `matrixMultiply` acquires, in acquisition order: the four
host buffers (`malloc`), the four device buffers (`cudaMalloc`), the two CUDA
events (`cudaEventCreate`) and the cuBLAS handle (`cublasCreate`). -/
inductive Res where
  | h_A
  | h_B
  | h_C
  | h_C2
  | d_A
  | d_B
  | d_C
  | d_C2
  | evStart
  | evStop
  | blasHandle
deriving DecidableEq

/-- Acquisition order of the resources in `matrixMultiply`. -/
def acquiredResources : List Res :=
  [.h_A, .h_B, .h_C, .h_C2, .d_A, .d_B, .d_C, .d_C2, .evStart, .evStop, .blasHandle]

/-- The releases performed on the normal-completion path of `matrixMultiply`,
in order: `cublasDestroy`, the four `free`s, the four `cudaFree`s.  No
`cudaEventDestroy` occurs anywhere in the program, and the abort paths
(`checkCudaErrors`) terminate the process without reaching this code. -/
def releasedResources : List Res :=
  [.blasHandle, .h_A, .h_B, .h_C, .h_C2, .d_A, .d_B, .d_C, .d_C2]

/-- C1: for every valid `sMatrixSize` (`uiWA = uiHB`, `uiHC = uiHA`,
`uiWC = uiWB`) and row-major buffers, the `cublasSgemm` invocation of
`matrixMultiply` — no transpose flags, left operand `d_B` with leading
dimension `uiWB`, right operand `d_A` with leading dimension `uiWA`, output
leading dimension `uiWB` — writes at every row-major position `(i, j)` of `C`
exactly the row-major product entry `Σ_k A[i,k]·B[k,j]`, which equals the
Reference Compute's value on the same inputs (exact arithmetic, identity
narrowing). -/
theorem gemmCall_eq_rowMajor_product (sz : sMatrixSize) (d_A d_B d_Cinit D0 : ℕ → ℚ)
    (h1 : sz.uiWA = sz.uiHB) (h2 : sz.uiHC = sz.uiHA) (h3 : sz.uiWC = sz.uiWB)
    (i j : ℕ) (hi : i < sz.uiHC) (hj : j < sz.uiWC) :
    matrixMultiplyGemmCall sz d_A d_B d_Cinit (i * sz.uiWC + j)
        = ∑ k ∈ Finset.range sz.uiWA, d_A (i * sz.uiWA + k) * d_B (k * sz.uiWB + j)
      ∧ matrixMultiplyGemmCall sz d_A d_B d_Cinit (i * sz.uiWC + j)
        = matrixMulCPU id D0 d_A d_B sz.uiHA sz.uiWA sz.uiWB (i * sz.uiWB + j) := by
  have hj' : j < sz.uiWB := h3 ▸ hj
  have hi' : i < sz.uiHA := h2 ▸ hi
  have hwB : 0 < sz.uiWB := by omega
  have hmod : (i * sz.uiWB + j) % sz.uiWB = j := by
    rw [Nat.mul_comm i sz.uiWB, Nat.mul_add_mod, Nat.mod_eq_of_lt hj']
  have hdiv : (i * sz.uiWB + j) / sz.uiWB = i := by
    rw [Nat.mul_comm i sz.uiWB, Nat.mul_add_div hwB, Nat.div_eq_of_lt hj']
    omega
  have key : matrixMultiplyGemmCall sz d_A d_B d_Cinit (i * sz.uiWB + j)
      = ∑ k ∈ Finset.range sz.uiWA, d_A (i * sz.uiWA + k) * d_B (k * sz.uiWB + j) := by
    simp only [matrixMultiplyGemmCall, cublasSgemmNN]
    rw [hmod, hdiv, if_pos ⟨hj', hi'⟩,
      foldl_add_eq_sum (fun l => d_B (j + l * sz.uiWB) * d_A (l + i * sz.uiWA)) sz.uiWA 0]
    simp only [one_mul, zero_mul, add_zero, zero_add]
    refine Finset.sum_congr rfl ?_
    intro l _
    rw [Nat.add_comm j (l * sz.uiWB), Nat.add_comm l (i * sz.uiWA), mul_comm]
  constructor
  · rw [h3]
    exact key
  · rw [h3, matrixMulCPU_spec id D0 d_A d_B sz.uiHA sz.uiWA sz.uiWB i j hi' hj']
    exact key

/-- Witness for C1 at the concrete valid 1×1 descriptor with `A = [2]`,
`B = [3]`. -/
theorem gemmCall_eq_rowMajor_product_witness :
    matrixMultiplyGemmCall ⟨1, 1, 1, 1, 1, 1⟩ (fun _ => 2) (fun _ => 3) (fun _ => 0) 0
        = ∑ _k ∈ Finset.range 1, (2 : ℚ) * 3
      ∧ matrixMultiplyGemmCall ⟨1, 1, 1, 1, 1, 1⟩ (fun _ => 2) (fun _ => 3) (fun _ => 0) 0
        = matrixMulCPU id (fun _ => 0) (fun _ => 2) (fun _ => 3) 1 1 1 0 :=
  gemmCall_eq_rowMajor_product ⟨1, 1, 1, 1, 1, 1⟩ (fun _ => 2) (fun _ => 3) (fun _ => 0)
    (fun _ => 0) rfl rfl rfl 0 0 (by decide) (by decide)

/-- C2: the Reference Compute stores at every output position `(i, j)` with
`i < hA`, `j < wB` the value `fl (Σ_{k<wA} A[i*wA+k] * B[k*wB+j])`: the
accumulation is carried out exactly (double precision, exact in the rational
model) and the narrowing `fl` to single precision is applied exactly once, on
the final store. -/
theorem matrixMulCPU_entry_value (fl : ℚ → ℚ) (C0 A B : ℕ → ℚ) (hA wA wB i j : ℕ)
    (hi : i < hA) (hj : j < wB) :
    matrixMulCPU fl C0 A B hA wA wB (i * wB + j)
      = fl (∑ k ∈ Finset.range wA, A (i * wA + k) * B (k * wB + j)) :=
  matrixMulCPU_spec fl C0 A B hA wA wB i j hi hj

/-- Witness for C2 at a concrete 1×1 problem. -/
theorem matrixMulCPU_entry_value_witness :
    matrixMulCPU id (fun _ => 0) (fun _ => 2) (fun _ => 3) 1 1 1 (0 * 1 + 0)
      = id (∑ k ∈ Finset.range 1, (fun _ => (2 : ℚ)) (0 * 1 + k) * (fun _ => (3 : ℚ)) (k * 1 + 0)) :=
  matrixMulCPU_entry_value id (fun _ => 0) (fun _ => 2) (fun _ => 3) 1 1 1 0 0
    (by decide) (by decide)

/-- C3: in the benchmark protocol the reference buffer of every timed trial's
comparison is `h_C2`, the result of the first accelerated invocation (copied
back to host once, before the trial loop): trial `j`'s verdict is
`sdkCompareL2fe (gpu 0) (gpu (j+1))`.  Moreover the CPU Reference Compute is
not the baseline: on a concrete run whose GPU outputs all differ from the CPU
routine's product, every trial still passes. -/
theorem baseline_is_first_gpu_result :
    (∀ (gpu : ℕ → ℕ → ℚ) (size_C : ℕ) (eps flops : ℚ) (msec : ℕ → ℚ) (j : ℕ),
        j < nIter →
        (matrixMultiplyModel gpu size_C eps flops msec).verdicts.get? j
          = some (sdkCompareL2fe (gpu 0) (gpu (j + 1)) size_C eps))
      ∧ (matrixMultiplyModel (fun _ _ => 5) 1 (1 / 10000000000) 2 (fun _ => 1)).failCount = 0
      ∧ matrixMulCPU id (fun _ => 0) (fun _ => 1) (fun _ => 1) 1 1 1 0 ≠ 5 := by
  refine ⟨?_, ?_, ?_⟩
  · intro gpu size_C eps flops msec j hj
    obtain ⟨-, -, -, e4⟩ := trialLoop_char (gpu 0) (fun t => gpu (t + 1)) size_C eps flops
      msec nIter ⟨nIter, 0, 0, []⟩
    show ((List.range nIter).foldl
        (trialStep (gpu 0) (fun t => gpu (t + 1)) size_C eps flops msec)
        ⟨nIter, 0, 0, []⟩).verdicts.get? j = _
    rw [e4, List.nil_append, List.get?_map, List.get?_range hj, Option.map_some']
  · have hpass : sdkCompareL2fe (fun _ => (5 : ℚ)) (fun _ => (5 : ℚ)) 1 (1 / 10000000000)
        = true := by
      simp only [sdkCompareL2fe]
      norm_num
    obtain ⟨-, e2, -, -⟩ := trialLoop_char (fun _ => (5 : ℚ)) (fun _ _ => (5 : ℚ)) 1
      (1 / 10000000000) 2 (fun _ => 1) nIter ⟨nIter, 0, 0, []⟩
    show ((List.range nIter).foldl
        (trialStep (fun _ => (5 : ℚ)) (fun _ _ => (5 : ℚ)) 1 (1 / 10000000000) 2
          (fun _ => 1)) ⟨nIter, 0, 0, []⟩).failCount = 0
    rw [e2]
    simp only [hpass, Bool.not_true]
    simp
  · have h := matrixMulCPU_spec id (fun _ => 0) (fun _ => 1) (fun _ => 1) 1 1 1 0 0
      (by norm_num) (by norm_num)
    simp only [Nat.zero_mul, Nat.add_zero, Nat.mul_one] at h
    rw [h]
    norm_num

/-- Witness for C3 at trial 0 of a concrete run. -/
theorem baseline_is_first_gpu_result_witness :
    (matrixMultiplyModel (fun _ _ => 7) 1 1 2 (fun _ => 1)).verdicts.get? 0
      = some (sdkCompareL2fe (fun _ => 7) (fun _ => 7) 1 1) :=
  baseline_is_first_gpu_result.1 (fun _ _ => 7) 1 1 2 (fun _ => 1) 0 (by decide)

/-- C4: after the fixed `nIter = 100` trials with `F` failing trials, the
reported statistics are exact: `failCount = F` (incremented by one per failing
trial), `failureRate = F / 100`, `totalPerf` is the sum of every trial's
derived throughput, and `averagePerf = totalPerf / 100`. -/
theorem trial_statistics_exact (gpu : ℕ → ℕ → ℚ) (size_C : ℕ) (eps flops : ℚ)
    (msec : ℕ → ℚ) :
    (matrixMultiplyModel gpu size_C eps flops msec).iterationsRun = nIter
      ∧ (matrixMultiplyModel gpu size_C eps flops msec).failCount
        = ((List.range nIter).filter
            (fun j => !(sdkCompareL2fe (gpu 0) (gpu (j + 1)) size_C eps))).length
      ∧ failureRate (matrixMultiplyModel gpu size_C eps flops msec)
        = (((List.range nIter).filter
            (fun j => !(sdkCompareL2fe (gpu 0) (gpu (j + 1)) size_C eps))).length : ℚ)
          / (nIter : ℚ)
      ∧ (matrixMultiplyModel gpu size_C eps flops msec).totalPerf
        = ∑ j ∈ Finset.range nIter, gigaFlopsOf flops (msec j)
      ∧ averagePerf (matrixMultiplyModel gpu size_C eps flops msec)
        = (∑ j ∈ Finset.range nIter, gigaFlopsOf flops (msec j)) / (nIter : ℚ) := by
  obtain ⟨e1, e2, e3, e4⟩ := trialLoop_char (gpu 0) (fun t => gpu (t + 1)) size_C eps flops
    msec nIter ⟨nIter, 0, 0, []⟩
  have hm : matrixMultiplyModel gpu size_C eps flops msec
      = (List.range nIter).foldl
          (trialStep (gpu 0) (fun t => gpu (t + 1)) size_C eps flops msec)
          ⟨nIter, 0, 0, []⟩ := rfl
  rw [hm, failureRate, averagePerf, e1, e2, e3]
  refine ⟨rfl, by simp, by simp, by simp, by simp⟩

/-- C5: when the reference buffer's L2 norm is zero, the Result Comparator
does not silently divide by zero: its behaviour is the explicitly defined
alternative "pass iff the candidate is also all-zero". -/
theorem sdkCompareL2fe_zero_ref (reference data : ℕ → ℚ) (len : ℕ) (epsilon : ℚ)
    (h0 : (∑ i ∈ Finset.range len, (reference i) ^ 2) = 0) :
    sdkCompareL2fe reference data len epsilon = true ↔ ∀ i < len, data i = 0 := by
  have href : ∀ i ∈ Finset.range len, reference i = 0 := by
    intro i hi
    have h := (Finset.sum_eq_zero_iff_of_nonneg
      (fun i _ => sq_nonneg (reference i))).mp h0 i hi
    exact pow_eq_zero_iff two_ne_zero |>.mp h
  rw [sdkCompareL2fe, if_pos h0, decide_eq_true_eq]
  constructor
  · intro hsum i hi
    have hz := (Finset.sum_eq_zero_iff_of_nonneg
      (fun i _ => sq_nonneg (reference i - data i))).mp hsum i (Finset.mem_range.mpr hi)
    have hsub : reference i - data i = 0 := pow_eq_zero_iff two_ne_zero |>.mp hz
    have hri : reference i = 0 := href i (Finset.mem_range.mpr hi)
    linarith
  · intro hall
    apply Finset.sum_eq_zero
    intro i hi
    rw [href i hi, hall i (Finset.mem_range.mp hi)]
    norm_num

/-- Witness for C5: an all-zero reference with an all-zero candidate. -/
theorem sdkCompareL2fe_zero_ref_witness :
    ((∑ i ∈ Finset.range 1, ((fun _ => (0 : ℚ)) i) ^ 2) = 0)
      ∧ (sdkCompareL2fe (fun _ => 0) (fun _ => 0) 1 1 = true
          ↔ ∀ i < 1, (fun _ => (0 : ℚ)) i = 0) :=
  ⟨by simp, sdkCompareL2fe_zero_ref (fun _ => 0) (fun _ => 0) 1 1 (by simp)⟩

/-- C9 counterexample: the fill routine does not keep every element strictly
below 1.  With the libc-permitted stream in which `rand()` returns
`RAND_MAX = 32767`, the element written at position 0 is exactly 1, so it does
not lie in the half-open interval `[0, 1)`. -/
theorem randomInit_unit_cex :
    randomInit (fun _ => 32767) 32767 (fun _ => 0) 1 0 = 1
      ∧ ¬(randomInit (fun _ => 32767) 32767 (fun _ => 0) 1 0 < 1) := by
  have h := randomInit_spec (fun _ => 32767) 32767 (fun _ => 0) 1 0 (by norm_num)
  constructor
  · rw [h]; norm_num
  · rw [h]; norm_num

/-- C9 amended: every element written by `randomInit` lies in the closed
interval `[0, 1]` — nonnegative and at most 1; the upper endpoint is
attainable (see the counterexample above). -/
theorem randomInit_closed_range (r : ℕ → ℕ) (rmax : ℕ) (data0 : ℕ → ℚ) (size i : ℕ)
    (hrm : 0 < rmax) (hr : ∀ n, r n ≤ rmax) (hi : i < size) :
    0 ≤ randomInit r rmax data0 size i ∧ randomInit r rmax data0 size i ≤ 1 := by
  rw [randomInit_spec r rmax data0 size i hi]
  constructor
  · positivity
  · rw [div_le_one (by exact_mod_cast hrm)]
    exact_mod_cast hr i

/-- Witness for C9's amended claim. -/
theorem randomInit_closed_range_witness :
    (0 : ℕ) < 2 ∧ (∀ _n : ℕ, (1 : ℕ) ≤ 2) ∧ (0 : ℕ) < 1
      ∧ (0 ≤ randomInit (fun _ => 1) 2 (fun _ => 0) 1 0
          ∧ randomInit (fun _ => 1) 2 (fun _ => 0) 1 0 ≤ 1) :=
  ⟨by decide, fun _ => Nat.le_succ 1, by decide,
    randomInit_closed_range (fun _ => 1) 2 (fun _ => 0) 1 0 (by decide)
      (fun _ => Nat.le_succ 1) (by decide)⟩

/-- C10: the per-trial throughput derivation divides the operation count
`2·uiHC·uiWC·uiHB` by the measured elapsed time with no guard against zero:
when the elapsed-time oracle reports 0 milliseconds for trial `j`, the trial
step still executes and accumulates `gigaFlopsOf flops 0` — the unguarded
division evaluated at zero, which in the total rational model is 0 (the C
float division would produce an infinity; no error branch exists either
way). -/
theorem throughput_division_unguarded (h_C2 : ℕ → ℚ) (h_C : ℕ → ℕ → ℚ) (size_C : ℕ)
    (eps : ℚ) (sz : sMatrixSize) (msec : ℕ → ℚ) (s : TrialStats) (j : ℕ)
    (h0 : msec j = 0) :
    trialStep h_C2 h_C size_C eps (flopsPerMatrixMul sz) msec s j
        = { iterationsRun := s.iterationsRun
            failCount :=
              if sdkCompareL2fe h_C2 (h_C j) size_C eps then s.failCount else s.failCount + 1
            totalPerf := s.totalPerf + gigaFlopsOf (flopsPerMatrixMul sz) 0
            verdicts := s.verdicts ++ [sdkCompareL2fe h_C2 (h_C j) size_C eps] }
      ∧ gigaFlopsOf (flopsPerMatrixMul sz) 0 = 0 := by
  constructor
  · rw [trialStep, h0]
  · rw [gigaFlopsOf]
    simp

/-- Witness for C10 at a concrete trial with zero elapsed time. -/
theorem throughput_division_unguarded_witness :
    trialStep (fun _ => 1) (fun _ _ => 1) 1 1 (flopsPerMatrixMul ⟨1, 1, 1, 1, 1, 1⟩)
        (fun _ => 0) ⟨nIter, 0, 0, []⟩ 0
        = { iterationsRun := (⟨nIter, 0, 0, []⟩ : TrialStats).iterationsRun
            failCount :=
              if sdkCompareL2fe (fun _ => 1) ((fun _ _ => 1) 0) 1 1 then
                (⟨nIter, 0, 0, []⟩ : TrialStats).failCount
              else (⟨nIter, 0, 0, []⟩ : TrialStats).failCount + 1
            totalPerf := (⟨nIter, 0, 0, []⟩ : TrialStats).totalPerf
              + gigaFlopsOf (flopsPerMatrixMul ⟨1, 1, 1, 1, 1, 1⟩) 0
            verdicts := (⟨nIter, 0, 0, []⟩ : TrialStats).verdicts
              ++ [sdkCompareL2fe (fun _ => 1) ((fun _ _ => 1) 0) 1 1] }
      ∧ gigaFlopsOf (flopsPerMatrixMul ⟨1, 1, 1, 1, 1, 1⟩) 0 = 0 :=
  throughput_division_unguarded (fun _ => 1) (fun _ _ => 1) 1 1 ⟨1, 1, 1, 1, 1, 1⟩
    (fun _ => 0) ⟨nIter, 0, 0, []⟩ 0 rfl

/-- C6: both power-state transitions execute their sub-operations in the
fixed order (resolve handle of device 0, set power limit, set/reset
application clocks, disable/enable auto-boost); any sub-operation failure is
reported naming device 0 and the failing operation, halts the remaining
sub-operations of that transition, leaves already-applied mutations in place
(no rollback), and surfaces as a failed-transition outcome. -/
theorem power_transition_contract (o : NvmlOracle) (d : DeviceState)
    (hinit : o.initOk = true) :
    transitionContract constrainedOrder constrainedEffect o d (undervolte o d)
      ∧ transitionContract normalOrder normalEffect o d (resetvolte o d) := by
  constructor
  · constructor
    · intro hall
      have h1 := hall SubOp.getHandle (by simp [constrainedOrder])
      have h2 := hall SubOp.setPowerLimit (by simp [constrainedOrder])
      have h3 := hall SubOp.setAppClocks (by simp [constrainedOrder])
      have h4 := hall SubOp.disableAutoBoost (by simp [constrainedOrder])
      simp [undervolte, hinit, h1, h2, h3, h4, constrainedOrder, constrainedEffect]
    · intro pre op suf heq hpre hop
      rcases pre with _ | ⟨a1, pre⟩
      · simp only [constrainedOrder, List.nil_append, List.cons.injEq] at heq
        obtain ⟨ho, -⟩ := heq
        subst ho
        simp [undervolte, hinit, hop, constrainedEffect]
      rcases pre with _ | ⟨a2, pre⟩
      · simp only [constrainedOrder, List.cons_append, List.nil_append,
          List.cons.injEq] at heq
        obtain ⟨ha1, ho, -⟩ := heq
        subst ha1; subst ho
        have p1 := hpre SubOp.getHandle (by simp)
        simp [undervolte, hinit, p1, hop, constrainedEffect]
      rcases pre with _ | ⟨a3, pre⟩
      · simp only [constrainedOrder, List.cons_append, List.nil_append,
          List.cons.injEq] at heq
        obtain ⟨ha1, ha2, ho, -⟩ := heq
        subst ha1; subst ha2; subst ho
        have p1 := hpre SubOp.getHandle (by simp)
        have p2 := hpre SubOp.setPowerLimit (by simp)
        simp [undervolte, hinit, p1, p2, hop, constrainedEffect]
      rcases pre with _ | ⟨a4, pre⟩
      · simp only [constrainedOrder, List.cons_append, List.nil_append,
          List.cons.injEq] at heq
        obtain ⟨ha1, ha2, ha3, ho, -⟩ := heq
        subst ha1; subst ha2; subst ha3; subst ho
        have p1 := hpre SubOp.getHandle (by simp)
        have p2 := hpre SubOp.setPowerLimit (by simp)
        have p3 := hpre SubOp.setAppClocks (by simp)
        simp [undervolte, hinit, p1, p2, p3, hop, constrainedEffect]
      · simp only [constrainedOrder, List.cons_append, List.cons.injEq] at heq
        obtain ⟨-, -, -, -, habs⟩ := heq
        exact absurd habs (by simp)
  · constructor
    · intro hall
      have h1 := hall SubOp.getHandle (by simp [normalOrder])
      have h2 := hall SubOp.setPowerLimit (by simp [normalOrder])
      have h3 := hall SubOp.resetAppClocks (by simp [normalOrder])
      have h4 := hall SubOp.enableAutoBoost (by simp [normalOrder])
      simp [resetvolte, hinit, h1, h2, h3, h4, normalOrder, normalEffect]
    · intro pre op suf heq hpre hop
      rcases pre with _ | ⟨a1, pre⟩
      · simp only [normalOrder, List.nil_append, List.cons.injEq] at heq
        obtain ⟨ho, -⟩ := heq
        subst ho
        simp [resetvolte, hinit, hop, normalEffect]
      rcases pre with _ | ⟨a2, pre⟩
      · simp only [normalOrder, List.cons_append, List.nil_append,
          List.cons.injEq] at heq
        obtain ⟨ha1, ho, -⟩ := heq
        subst ha1; subst ho
        have p1 := hpre SubOp.getHandle (by simp)
        simp [resetvolte, hinit, p1, hop, normalEffect]
      rcases pre with _ | ⟨a3, pre⟩
      · simp only [normalOrder, List.cons_append, List.nil_append,
          List.cons.injEq] at heq
        obtain ⟨ha1, ha2, ho, -⟩ := heq
        subst ha1; subst ha2; subst ho
        have p1 := hpre SubOp.getHandle (by simp)
        have p2 := hpre SubOp.setPowerLimit (by simp)
        simp [resetvolte, hinit, p1, p2, hop, normalEffect]
      rcases pre with _ | ⟨a4, pre⟩
      · simp only [normalOrder, List.cons_append, List.nil_append,
          List.cons.injEq] at heq
        obtain ⟨ha1, ha2, ha3, ho, -⟩ := heq
        subst ha1; subst ha2; subst ha3; subst ho
        have p1 := hpre SubOp.getHandle (by simp)
        have p2 := hpre SubOp.setPowerLimit (by simp)
        have p3 := hpre SubOp.resetAppClocks (by simp)
        simp [resetvolte, hinit, p1, p2, p3, hop, normalEffect]
      · simp only [normalOrder, List.cons_append, List.cons.injEq] at heq
        obtain ⟨-, -, -, -, habs⟩ := heq
        exact absurd habs (by simp)

/-- Witness for C6 on the all-success oracle. -/
theorem power_transition_contract_witness :
    allOkOracle.initOk = true
      ∧ (transitionContract constrainedOrder constrainedEffect allOkOracle
            ⟨38500, none, true⟩ (undervolte allOkOracle ⟨38500, none, true⟩)
          ∧ transitionContract normalOrder normalEffect allOkOracle
            ⟨38500, none, true⟩ (resetvolte allOkOracle ⟨38500, none, true⟩)) :=
  ⟨rfl, power_transition_contract allOkOracle ⟨38500, none, true⟩ rfl⟩

/-- C7 counterexample: starting from power limit 12345 mW and performing the
Constrained transition followed by the Normal transition with every NVML
call succeeding, the final power limit is the hard-coded 38500, not the
initial 12345 — the round-trip does not restore the prior value. -/
theorem power_roundtrip_cex :
    (resetvolte allOkOracle
        (undervolte allOkOracle ⟨12345, none, true⟩).device).device.powerLimit = 38500
      ∧ (resetvolte allOkOracle
          (undervolte allOkOracle ⟨12345, none, true⟩).device).device.powerLimit ≠ 12345 := by
  constructor
  · rfl
  · decide

/-- C7 amended: the Constrained-then-Normal round trip with all calls
succeeding leaves the power limit equal to the hard-coded nominal value
38500 mW, whatever the initial value was; it equals the pre-transition value
only when that value was already 38500. -/
theorem power_roundtrip_nominal (o : NvmlOracle) (d : DeviceState)
    (hinit : o.initOk = true) (hall : ∀ op, o.ok op = true) :
    (resetvolte o (undervolte o d).device).device.powerLimit = 38500 := by
  simp [undervolte, resetvolte, hinit, hall]

/-- Witness for C7's amended claim. -/
theorem power_roundtrip_nominal_witness :
    allOkOracle.initOk = true ∧ (∀ op, allOkOracle.ok op = true)
      ∧ (resetvolte allOkOracle
          (undervolte allOkOracle ⟨31000, some (1, 2), false⟩).device).device.powerLimit
        = 38500 :=
  ⟨rfl, fun _ => rfl,
    power_roundtrip_nominal allOkOracle ⟨31000, some (1, 2), false⟩ rfl (fun _ => rfl)⟩

/-- C8 counterexample: the two CUDA events are acquired by `matrixMultiply`
but never destroyed, even on the normal-completion path, so not every
acquired resource is released. -/
theorem resources_event_leak_cex :
    Res.evStart ∈ acquiredResources ∧ Res.evStart ∉ releasedResources := by
  decide

/-- C8 amended: on the normal-completion path `matrixMultiply` releases
exactly the acquired resources other than the two CUDA timing events (the
cuBLAS handle, the four host buffers and the four device buffers); the events
are never destroyed, and the abort paths (`checkCudaErrors`) terminate the
process without reaching the release code at all. -/
theorem resources_released_except_events (r : Res) :
    r ∈ releasedResources ↔ (r ∈ acquiredResources ∧ r ≠ Res.evStart ∧ r ≠ Res.evStop) := by
  cases r <;> decide
